import Mathlib

/-!
# Shallow embedding of `tinypatscan` (`src/lib.rs`)

A fixed-capacity byte-pattern matcher: an IDA-style signature (hex byte
tokens and `??` wildcards) is compiled by `Pattern::from_str` into a
`data`/`mask` pair, and searched for in a byte buffer by `search` (linear),
`simd_search` (16-byte chunked) and `par_search` (rayon).

Modelling conventions:
* bytes and character codes are `Nat` (buffer bytes are `< 256` in practice);
* a Rust string is its list of UTF-8 bytes (`List Nat`);
* a Rust panic (failed `assert!`, failed `const_unwrap!`, out-of-bounds
  index, `windows(0)`) is `none` / `Except.error ()`;
* the `memchr` exact-substring fast path is feature-gated in the source and
  treated by the spec as an out-of-scope external collaborator, so the build
  modelled here has that feature disabled;
* rayon's `find_any` nondeterminism is modelled by a relation over the
  deterministically mapped per-offset candidates.
-/

namespace Tinypatscan

/-- The array write `l[i] = v`; Rust panics when `i` is out of bounds. -/
def setAt (l : List Nat) (i v : Nat) : Option (List Nat) :=
  if i < l.length then some (l.set i v) else none

/-- Value of an ASCII hex digit (`0-9`, `A-F`, `a-f`), `none` otherwise. -/
def hexDigit (c : Nat) : Option Nat :=
  if 48 ≤ c ∧ c ≤ 57 then some (c - 48)
  else if 65 ≤ c ∧ c ≤ 70 then some (c - 55)
  else if 97 ≤ c ∧ c ≤ 102 then some (c - 87)
  else none

/-- `u8::from_str_radix` in base 16 applied to the two-byte scratch buffer
`hexbytes` (`core::str::from_utf8` on two bytes that are not hex digits
either fails or yields non-digit characters; both end in the same panic, so
only digit-validity matters for the outcome). `from_str_radix` accepts an
optional leading `+` sign, and for an unsigned target a leading `-` only
with value zero. -/
def from_str_radix16 (c0 c1 : Nat) : Option Nat :=
  if c0 = 43 then hexDigit c1
  else if c0 = 45 then
    match hexDigit c1 with
    | some 0 => some 0
    | _ => none
  else
    match hexDigit c0, hexDigit c1 with
    | some a, some b => some (16 * a + b)
    | _, _ => none

/-- `Pattern<SIZE>`: the const generic `SIZE` becomes the field `size`;
`data` and `mask` are the two `[u8; SIZE]` arrays (length `size` lists). -/
structure Pattern where
  size : Nat
  data : List Nat
  mask : List Nat
  pattern_i : Nat
  no_mask : Bool
deriving DecidableEq, Repr

/-- The local mutable state of the `from_str` parsing loop. -/
structure PState where
  data : List Nat
  mask : List Nat
  pattern_i : Nat
  hex0 : Nat
  hex1 : Nat
  found_huh : Bool
  no_mask : Bool
deriving DecidableEq, Repr

/-- Initial parser state: `data = [0u8; SIZE]`, `mask = [u8::MAX; SIZE]`. -/
def initState (N : Nat) : PState :=
  ⟨List.replicate N 0, List.replicate N 255, 0, 0, 0, false, true⟩

/-- One iteration of the `from_str` loop body (the `match char` statement):
space flushes the scratch buffer into `data`, `?` opens or continues a
wildcard token, anything else is stored into the scratch buffer. -/
def parseChar (st : PState) (c : Nat) : Option PState :=
  if c = 32 then
    if st.found_huh then
      some { st with found_huh := false, hex0 := 0, hex1 := 0 }
    else if st.hex0 ≠ 0 ∧ st.hex1 ≠ 0 then
      (from_str_radix16 st.hex0 st.hex1).bind fun v =>
        (setAt st.data st.pattern_i v).bind fun d =>
          some { st with data := d, pattern_i := st.pattern_i + 1,
                         hex0 := 0, hex1 := 0 }
    else none
  else if c = 63 then
    if st.found_huh then
      some { st with found_huh := true, no_mask := false }
    else if st.hex0 = 0 ∧ st.hex1 = 0 then
      (setAt st.mask st.pattern_i 0).bind fun m =>
        some { st with mask := m, pattern_i := st.pattern_i + 1,
                       found_huh := true, no_mask := false }
    else none
  else
    if st.hex0 ≠ 0 then some { st with hex1 := c } else some { st with hex0 := c }

/-- The `if i == sus.len()` end-of-input block, executed once after the last
character of a nonempty signature: flush the pending scratch buffer. The
`hexbytes[0] == b'?'` branch keeps `pattern_i` unchanged (the Rust code
`continue`s without incrementing it). -/
def flush (st : PState) : Option PState :=
  if st.hex0 = 0 then none
  else if st.hex0 = 63 then
    (setAt st.mask st.pattern_i 0).bind fun m => some { st with mask := m }
  else if st.hex1 = 0 then none
  else
    (from_str_radix16 st.hex0 st.hex1).bind fun v =>
      (setAt st.data st.pattern_i v).bind fun d =>
        some { st with data := d, pattern_i := st.pattern_i + 1 }

/-- The character loop of `from_str` without the end-of-input block. -/
def runParse (st : PState) : List Nat → Option PState
  | [] => some st
  | c :: rest => (parseChar st c).bind (fun st2 => runParse st2 rest)

/-- Loop body of `get_pattern_size`: `nw` is the `non_whitespace` flag
(initially `true`); a space seen while `nw` holds counts one boundary. -/
def gpsLoop : List Nat → Bool → Nat
  | [], _ => 0
  | c :: rest, nw =>
    if c = 32 then (if nw then 1 else 0) + gpsLoop rest false
    else gpsLoop rest true

/-- `get_pattern_size`: boundary count plus one. -/
def get_pattern_size (s : List Nat) : Nat := gpsLoop s true + 1

/-- `Pattern::from_str`: the `SIZE > get_pattern_size(sus)` assertion, then
the character loop; for a nonempty signature the end-of-input block runs
after the last character. -/
def from_str (N : Nat) (sus : List Nat) : Option Pattern :=
  if get_pattern_size sus < N then
    match runParse (initState N) sus with
    | some st =>
      match (if sus = [] then some st else flush st) with
      | some st2 => some ⟨N, st2.data, st2.mask, st2.pattern_i, st2.no_mask⟩
      | none => none
    | none => none
  else none

/-- The inner `'compare` loop of `search` at window offset `i`: every index
below `pattern_i` either has mask `0` (wildcard, skipped) or pattern data
equal to the window byte `slice[index] = bytes[i + index]`. -/
def matchesAt (p : Pattern) (bytes : List Nat) (i : Nat) : Bool :=
  (List.range p.pattern_i).all fun k =>
    p.mask.getD k 0 == 0 || p.data.getD k 0 == bytes.getD (i + k) 0

/-- Number of windows produced by `bytes.windows(n)` for `n ≥ 1`. -/
def numWindows (len n : Nat) : Nat := if n ≤ len then len - n + 1 else 0

/-- The outer `'search` loop of `search`: try offsets `i, i+1, …` over the
remaining `fuel` windows, returning the first accepted offset. -/
def searchGo (p : Pattern) (bytes : List Nat) : Nat → Nat → Option Nat
  | 0, _ => none
  | fuel + 1, i =>
    if matchesAt p bytes i then some i else searchGo p bytes fuel (i + 1)

/-- `Pattern::search` (memchr feature disabled): the `pattern_i <= SIZE`
assertion, then the windows scan; `bytes.windows(0)` panics in Rust, which
happens exactly when `pattern_i = 0`. -/
def search (p : Pattern) (bytes : List Nat) : Except Unit (Option Nat) :=
  if p.pattern_i ≤ p.size then
    if p.pattern_i = 0 then Except.error ()
    else Except.ok (searchGo p bytes (numWindows bytes.length p.pattern_i) 0)
  else Except.error ()

/-- `chunks_exact(16)` unrolled with structural fuel (`fuel ≥ l.length`
suffices, and `chunksExact16` passes exactly `l.length`). -/
def chunksExactGo : Nat → List Nat → List (List Nat)
  | 0, _ => []
  | fuel + 1, l =>
    if 16 ≤ l.length then l.take 16 :: chunksExactGo fuel (l.drop 16) else []

/-- `slice.chunks_exact(16)`: the list of full 16-byte chunks, in order. -/
def chunksExact16 (l : List Nat) : List (List Nat) := chunksExactGo l.length l

/-- The `for chunk in slice_chunks` loop of one `simd_search` window: for
each window chunk, pull the next pattern and mask chunks (`pchunks.next()?`
/ `mchunks.next()?` end the whole function with `None` when exhausted,
modelled as `none` here), AND the window chunk with the mask chunk and
compare with the raw pattern chunk; any lane inequality rejects the window
(`some false`); surviving every chunk yields `some true`. -/
def chunkCmp : List (List Nat) → List (List Nat) → List (List Nat) → Option Bool
  | [], _, _ => some true
  | _ :: _, [], _ => none
  | _ :: _, _ :: _, [] => none
  | s :: srest, pc :: prest, mc :: mrest =>
    if List.zipWith Nat.land s mc = pc then chunkCmp srest prest mrest
    else some false

/-- Outcome of one `simd_search` window: accepted, rejected (`continue
'search`), aborted via the `?` operator (whole call returns `None`), or a
panic of the in-loop `assert!`. -/
inductive SimdW
  | matched
  | rejected
  | earlyNone
  | panicked
deriving DecidableEq, Repr

/-- One window of `simd_search`: the chunked comparison over the full
16-byte chunks, then the `assert!(rem_chunk.len() + rem_start <= SIZE)`,
then the scalar `'remainder` loop over the tail bytes, indexing `mask` and
`data` at `rem_start + i`. -/
def simdWindowCheck (p : Pattern) (slice : List Nat) : SimdW :=
  match chunkCmp (chunksExact16 slice)
      (chunksExact16 (p.data.take p.pattern_i))
      (chunksExact16 (p.mask.take p.pattern_i)) with
  | none => SimdW.earlyNone
  | some false => SimdW.rejected
  | some true =>
    let rem := slice.drop (16 * (slice.length / 16))
    let rem_start := slice.length - rem.length
    if rem.length + rem_start ≤ p.size then
      if (List.range rem.length).all (fun j =>
          p.mask.getD (rem_start + j) 0 == 0 ||
          p.data.getD (rem_start + j) 0 == rem.getD j 0) then
        SimdW.matched
      else SimdW.rejected
    else SimdW.panicked

/-- The outer `'search` loop of `simd_search` over the window offsets. -/
def simdGo (p : Pattern) (bytes : List Nat) : Nat → Nat → Except Unit (Option Nat)
  | 0, _ => Except.ok none
  | fuel + 1, i =>
    match simdWindowCheck p ((bytes.drop i).take p.pattern_i) with
    | SimdW.matched => Except.ok (some i)
    | SimdW.rejected => simdGo p bytes fuel (i + 1)
    | SimdW.earlyNone => Except.ok none
    | SimdW.panicked => Except.error ()

/-- `Pattern::simd_search` (memchr feature disabled): the `pattern_i <=
SIZE` assertion, then the chunked windows scan; `bytes.windows(0)` panics
exactly when `pattern_i = 0`. -/
def simd_search (p : Pattern) (bytes : List Nat) : Except Unit (Option Nat) :=
  if p.pattern_i ≤ p.size then
    if p.pattern_i = 0 then Except.error ()
    else simdGo p bytes (numWindows bytes.length p.pattern_i) 0
  else Except.error ()

/-- The deterministic part of `par_search`: the value the rayon `map`
closure produces for window offset `i` — the same `'compare` loop as linear
search, yielding `Some(i)` on acceptance and `None` on rejection. -/
def parCandidates (p : Pattern) (bytes : List Nat) : List (Option Nat) :=
  (List.range (numWindows bytes.length p.pattern_i)).map fun i =>
    if matchesAt p bytes i then some i else none

/-- Models the nondeterminism of rayon's `find_any` in `par_search`: the
call may return `r` iff `r` is some `Some`-valued candidate (any worker may
win the race) or `r = None` and no candidate is a `Some`. -/
def par_search_may_return (p : Pattern) (bytes : List Nat) (r : Option Nat) : Prop :=
  (∃ o ∈ parCandidates p bytes, o.isSome ∧ r = o) ∨
    (r = none ∧ ∀ o ∈ parCandidates p bytes, o = none)

instance (p : Pattern) (bytes : List Nat) (r : Option Nat) :
    Decidable (par_search_may_return p bytes r) := by
  unfold par_search_may_return
  infer_instance

/-- Modelled from the spec (§6, claim C4): the token count of a raw
signature string is its number of whitespace-delimited groups. Spec-side
definition, to be compared with the source's `get_pattern_size`. -/
def tokenCountLoop : List Nat → Bool → Nat
  | [], _ => 0
  | c :: rest, inGroup =>
    if c = 32 then tokenCountLoop rest false
    else (if inGroup then 0 else 1) + tokenCountLoop rest true

/-- Modelled from the spec: number of whitespace-delimited groups. -/
def tokenCount (s : List Nat) : Nat := tokenCountLoop s false

/-- Spec-side match predicate at offset `i`: the window fits in the buffer
and every position below `pattern_i` whose mask is `EXACT` (nonzero) has
pattern data equal to the corresponding buffer byte. -/
def MatchAt (p : Pattern) (bytes : List Nat) (i : Nat) : Prop :=
  i + p.pattern_i ≤ bytes.length ∧
    ∀ k < p.pattern_i, p.mask.getD k 0 ≠ 0 → p.data.getD k 0 = bytes.getD (i + k) 0

instance (p : Pattern) (bytes : List Nat) (i : Nat) :
    Decidable (MatchAt p bytes i) := by
  unfold MatchAt; infer_instance

/-- Well-formedness facts enjoyed by every pattern `from_str` produces:
array lengths, `pattern_i ≤ size`, every mask entry `0` or `255`, data is
zero wherever the mask is zero, and data bytes fit in a `u8`. (`getD`
defaults make the pointwise clauses hold trivially beyond `size`.) -/
def WF (p : Pattern) : Prop :=
  p.data.length = p.size ∧ p.mask.length = p.size ∧ p.pattern_i ≤ p.size ∧
    (∀ k, p.mask.getD k 0 = 0 ∨ p.mask.getD k 0 = 255) ∧
    (∀ k, p.mask.getD k 0 = 0 → p.data.getD k 0 = 0) ∧
    (∀ k, p.data.getD k 0 < 256)

/-! ## List `getD` helpers -/

lemma getD_drop (l : List Nat) (i k : Nat) : (l.drop i).getD k 0 = l.getD (i + k) 0 := by
  simp [List.getD_eq_getElem?_getD, List.getElem?_drop]

lemma getD_take (l : List Nat) (n k : Nat) (h : k < n) :
    (l.take n).getD k 0 = l.getD k 0 := by
  simp [List.getD_eq_getElem?_getD, List.getElem?_take, h]

lemma getD_set_ne (l : List Nat) (i v j : Nat) (h : i ≠ j) :
    (l.set i v).getD j 0 = l.getD j 0 := by
  simp [List.getD_eq_getElem?_getD, List.getElem?_set, h]

lemma getD_set_eq (l : List Nat) (i v : Nat) (h : i < l.length) :
    (l.set i v).getD i 0 = v := by
  simp [List.getD_eq_getElem?_getD, List.getElem?_set, h]

lemma getD_replicate_255 (N k : Nat) :
    (List.replicate N (255 : Nat)).getD k 0 = if k < N then 255 else 0 := by
  simp only [List.getD_eq_getElem?_getD, List.getElem?_replicate]
  split <;> rfl

lemma getD_replicate_0 (N k : Nat) : (List.replicate N (0 : Nat)).getD k 0 = 0 := by
  simp only [List.getD_eq_getElem?_getD, List.getElem?_replicate]
  split <;> rfl

lemma getD_lt_256 {l : List Nat} (h : ∀ b ∈ l, b < 256) (k : Nat) :
    l.getD k 0 < 256 := by
  rcases Nat.lt_or_ge k l.length with hk | hk
  · rw [List.getD_eq_getElem?_getD, List.getElem?_eq_getElem hk]
    exact h _ (List.getElem_mem hk)
  · rw [List.getD_eq_getElem?_getD, List.getElem?_eq_none hk]
    norm_num

lemma all_congr {l : List Nat} {f g : Nat → Bool} (h : ∀ a ∈ l, f a = g a) :
    l.all f = l.all g := by
  induction l with
  | nil => rfl
  | cons a t ih =>
    simp only [List.all_cons]
    rw [h a (by simp), ih (fun b hb => h b (by simp [hb]))]

/-! ## Invariants of the compiler -/

lemma setAt_eq {l l' : List Nat} {i v : Nat} (h : setAt l i v = some l') :
    i < l.length ∧ l' = l.set i v := by
  unfold setAt at h
  split at h
  · exact ⟨by assumption, by injection h with h; exact h.symm⟩
  · cases h

lemma hexDigit_lt {c v : Nat} (h : hexDigit c = some v) : v < 16 := by
  unfold hexDigit at h
  split_ifs at h <;> injection h with h <;> omega

lemma from_str_radix16_lt {c0 c1 v : Nat} (h : from_str_radix16 c0 c1 = some v) :
    v < 256 := by
  unfold from_str_radix16 at h
  split_ifs at h
  · exact Nat.lt_of_lt_of_le (hexDigit_lt h) (by norm_num)
  · revert h
    cases hd : hexDigit c1 with
    | none => intro h; cases h
    | some w =>
      match w with
      | 0 => intro h; injection h with h; omega
      | w + 1 => intro h; cases h
  · revert h
    cases hd0 : hexDigit c0 with
    | none => intro h; cases h
    | some a =>
      cases hd1 : hexDigit c1 with
      | none => intro h; cases h
      | some b =>
        intro h; injection h with h
        have ha := hexDigit_lt hd0
        have hb := hexDigit_lt hd1
        omega

/-- The invariant maintained by the `from_str` loop state: array lengths,
`pattern_i` within capacity, mask entries `0` or `255`, `data` zero under a
zero mask, `data` bytes below 256, everything at or above the write position
still in its initial state, and the scratch buffer never holding `b'?'`
(a `?` character is consumed by the `b'?'` match arm, never stored). -/
def SWF (N : Nat) (st : PState) : Prop :=
  st.data.length = N ∧ st.mask.length = N ∧ st.pattern_i ≤ N ∧
    (∀ k, st.mask.getD k 0 = 0 ∨ st.mask.getD k 0 = 255) ∧
    (∀ k, st.mask.getD k 0 = 0 → st.data.getD k 0 = 0) ∧
    (∀ k, st.data.getD k 0 < 256) ∧
    (∀ k, st.pattern_i ≤ k → k < N →
      st.data.getD k 0 = 0 ∧ st.mask.getD k 0 = 255) ∧
    st.hex0 ≠ 63

lemma initState_SWF (N : Nat) : SWF N (initState N) := by
  refine ⟨by simp [initState], by simp [initState], Nat.zero_le N, ?_, ?_, ?_, ?_, by simp [initState]⟩
  · intro k
    simp only [initState, getD_replicate_255]
    split <;> simp
  · intro k _
    simp [initState, getD_replicate_0]
  · intro k
    simp [initState, getD_replicate_0]
  · intro k _ hk
    constructor
    · simp [initState, getD_replicate_0]
    · simp [initState, getD_replicate_255, hk]

lemma parseChar_SWF {N : Nat} {st st' : PState} {c : Nat} (hs : SWF N st)
    (h : parseChar st c = some st') : SWF N st' := by
  obtain ⟨hdl, hml, hpi, hm01, hm0d, hd256, habove, hh63⟩ := hs
  unfold parseChar at h
  by_cases h32 : c = 32
  · rw [if_pos h32] at h
    by_cases hfh : st.found_huh = true
    · rw [if_pos hfh] at h
      injection h with h
      subst h
      exact ⟨hdl, hml, hpi, hm01, hm0d, hd256, habove, by simp⟩
    · rw [if_neg hfh] at h
      by_cases hhex : st.hex0 ≠ 0 ∧ st.hex1 ≠ 0
      · rw [if_pos hhex] at h
        cases hr : from_str_radix16 st.hex0 st.hex1 with
        | none => rw [hr] at h; simp at h
        | some v =>
          rw [hr, Option.some_bind] at h
          cases hset : setAt st.data st.pattern_i v with
          | none => rw [hset] at h; simp at h
          | some d =>
            rw [hset, Option.some_bind] at h
            injection h with h
            subst h
            obtain ⟨hlt, hd⟩ := setAt_eq hset
            subst hd
            rw [hdl] at hlt
            refine ⟨?_, hml, ?_, hm01, ?_, ?_, ?_, by simp⟩
            · simp [hdl]
            · dsimp only
              omega
            · intro k hk
              dsimp only at hk ⊢
              by_cases hkp : k = st.pattern_i
              · subst hkp
                have := (habove st.pattern_i le_rfl hlt).2
                simp only [this] at hk
                omega
              · rw [getD_set_ne _ _ _ _ (Ne.symm hkp)]
                exact hm0d k hk
            · intro k
              dsimp only
              by_cases hkp : st.pattern_i = k
              · subst hkp
                rw [getD_set_eq _ _ _ (by omega)]
                exact from_str_radix16_lt hr
              · rw [getD_set_ne _ _ _ _ hkp]
                exact hd256 k
            · intro k hk1 hk2
              dsimp only at hk1 ⊢
              have hkp : st.pattern_i ≠ k := by omega
              rw [getD_set_ne _ _ _ _ hkp]
              exact habove k (by omega) hk2
      · rw [if_neg hhex] at h
        cases h
  · rw [if_neg h32] at h
    by_cases h63 : c = 63
    · rw [if_pos h63] at h
      by_cases hfh : st.found_huh = true
      · rw [if_pos hfh] at h
        injection h with h
        subst h
        exact ⟨hdl, hml, hpi, hm01, hm0d, hd256, habove, hh63⟩
      · rw [if_neg hfh] at h
        by_cases hhex : st.hex0 = 0 ∧ st.hex1 = 0
        · rw [if_pos hhex] at h
          cases hset : setAt st.mask st.pattern_i 0 with
          | none => rw [hset] at h; simp at h
          | some m =>
            rw [hset, Option.some_bind] at h
            injection h with h
            subst h
            obtain ⟨hlt, hm⟩ := setAt_eq hset
            subst hm
            rw [hml] at hlt
            refine ⟨hdl, ?_, ?_, ?_, ?_, hd256, ?_, hh63⟩
            · simp [hml]
            · dsimp only
              omega
            · intro k
              dsimp only
              by_cases hkp : st.pattern_i = k
              · subst hkp
                rw [getD_set_eq _ _ _ (by omega)]
                exact Or.inl rfl
              · rw [getD_set_ne _ _ _ _ hkp]
                exact hm01 k
            · intro k hk
              dsimp only at hk ⊢
              by_cases hkp : k = st.pattern_i
              · subst hkp
                exact (habove st.pattern_i le_rfl hlt).1
              · rw [getD_set_ne _ _ _ _ (Ne.symm hkp)] at hk
                exact hm0d k hk
            · intro k hk1 hk2
              dsimp only at hk1 ⊢
              have hkp : st.pattern_i ≠ k := by omega
              rw [getD_set_ne _ _ _ _ hkp]
              exact habove k (by omega) hk2
        · rw [if_neg hhex] at h
          cases h
    · rw [if_neg h63] at h
      split at h <;> injection h with h <;> subst h
      · exact ⟨hdl, hml, hpi, hm01, hm0d, hd256, habove, hh63⟩
      · exact ⟨hdl, hml, hpi, hm01, hm0d, hd256, habove, by simpa using h63⟩


lemma runParse_SWF {N : Nat} (s : List Nat) :
    ∀ st st', SWF N st → runParse st s = some st' → SWF N st' := by
  induction s with
  | nil =>
    intro st st' hs h
    unfold runParse at h
    injection h with h
    subst h
    exact hs
  | cons c rest ih =>
    intro st st' hs h
    unfold runParse at h
    cases hpc : parseChar st c with
    | none => rw [hpc] at h; cases h
    | some st2 =>
      rw [hpc] at h
      exact ih st2 st' (parseChar_SWF hs hpc) h

lemma flush_SWF {N : Nat} {st st' : PState} (hs : SWF N st)
    (h : flush st = some st') :
    st'.data.length = N ∧ st'.mask.length = N ∧
      st'.pattern_i = st.pattern_i + 1 ∧ st'.pattern_i ≤ N ∧
      (∀ k, st'.mask.getD k 0 = 0 ∨ st'.mask.getD k 0 = 255) ∧
      (∀ k, st'.mask.getD k 0 = 0 → st'.data.getD k 0 = 0) ∧
      (∀ k, st'.data.getD k 0 < 256) := by
  obtain ⟨hdl, hml, hpi, hm01, hm0d, hd256, habove, hh63⟩ := hs
  unfold flush at h
  by_cases h0 : st.hex0 = 0
  · rw [if_pos h0] at h
    cases h
  rw [if_neg h0, if_neg hh63] at h
  by_cases h1 : st.hex1 = 0
  · rw [if_pos h1] at h
    cases h
  rw [if_neg h1] at h
  cases hr : from_str_radix16 st.hex0 st.hex1 with
  | none => rw [hr] at h; simp at h
  | some v =>
    rw [hr, Option.some_bind] at h
    cases hset : setAt st.data st.pattern_i v with
    | none => rw [hset] at h; simp at h
    | some d =>
      rw [hset, Option.some_bind] at h
      injection h with h
      subst h
      obtain ⟨hlt, hd⟩ := setAt_eq hset
      subst hd
      rw [hdl] at hlt
      refine ⟨?_, hml, rfl, ?_, hm01, ?_, ?_⟩
      · simp [hdl]
      · dsimp only
        omega
      · intro k hk
        dsimp only at hk ⊢
        by_cases hkp : k = st.pattern_i
        · subst hkp
          have := (habove st.pattern_i le_rfl hlt).2
          simp only [this] at hk
          omega
        · rw [getD_set_ne _ _ _ _ (Ne.symm hkp)]
          exact hm0d k hk
      · intro k
        dsimp only
        by_cases hkp : st.pattern_i = k
        · subst hkp
          rw [getD_set_eq _ _ _ (by omega)]
          exact from_str_radix16_lt hr
        · rw [getD_set_ne _ _ _ _ hkp]
          exact hd256 k

/-- Every pattern `from_str` produces is well-formed, records the declared
capacity, and — for a nonempty signature — has at least one logical byte
(the end-of-input flush always stores a final exact byte). -/
lemma from_str_inv {N : Nat} {s : List Nat} {p : Pattern}
    (h : from_str N s = some p) :
    ∃ st st2, get_pattern_size s < N ∧ runParse (initState N) s = some st ∧
      (if s = [] then some st else flush st) = some st2 ∧
      p = ⟨N, st2.data, st2.mask, st2.pattern_i, st2.no_mask⟩ := by
  unfold from_str at h
  split at h
  next hN =>
    split at h
    next st heq =>
      split at h
      next st2 heq2 =>
        injection h with h
        exact ⟨st, st2, hN, heq, heq2, h.symm⟩
      next heq2 => cases h
    next heq => cases h
  next hN => cases h

lemma from_str_WF {N : Nat} {s : List Nat} {p : Pattern}
    (h : from_str N s = some p) : WF p ∧ p.size = N ∧ (s ≠ [] → 1 ≤ p.pattern_i) := by
  obtain ⟨st, st2, hN, hrp, hfl, hp⟩ := from_str_inv h
  have hswf := runParse_SWF s _ _ (initState_SWF N) hrp
  by_cases hs : s = []
  · rw [if_pos hs] at hfl
    injection hfl with hfl
    subst hfl
    subst hp
    obtain ⟨hdl, hml, hpi, hm01, hm0d, hd256, _, _⟩ := hswf
    exact ⟨⟨hdl, hml, hpi, hm01, hm0d, hd256⟩, rfl, fun hne => absurd hs hne⟩
  · rw [if_neg hs] at hfl
    obtain ⟨hdl, hml, hinc, hpi, hm01, hm0d, hd256⟩ := flush_SWF hswf hfl
    subst hp
    exact ⟨⟨hdl, hml, hpi, hm01, hm0d, hd256⟩, rfl,
      fun _ => by show 1 ≤ st2.pattern_i; omega⟩

/-! ## Linear search characterization -/

lemma searchGo_some_iff {p : Pattern} {bytes : List Nat} {fuel : Nat} :
    ∀ {i j : Nat}, searchGo p bytes fuel i = some j ↔
      (i ≤ j ∧ j < i + fuel ∧ matchesAt p bytes j = true ∧
        ∀ k, i ≤ k → k < j → matchesAt p bytes k = false) := by
  induction fuel with
  | zero =>
    intro i j
    simp only [searchGo]
    constructor
    · intro h; cases h
    · rintro ⟨h1, h2, _, _⟩; omega
  | succ f ih =>
    intro i j
    simp only [searchGo]
    by_cases hm : matchesAt p bytes i = true
    · rw [if_pos hm]
      constructor
      · intro h
        injection h with h
        subst h
        exact ⟨le_rfl, by omega, hm, fun k hk1 hk2 => absurd hk1 (by omega)⟩
      · rintro ⟨h1, h2, h3, h4⟩
        by_cases hij : i = j
        · rw [hij]
        · have := h4 i le_rfl (by omega)
          rw [hm] at this
          cases this
    · rw [if_neg hm]
      have hm' : matchesAt p bytes i = false := Bool.eq_false_iff.mpr hm
      rw [ih]
      constructor
      · rintro ⟨h1, h2, h3, h4⟩
        refine ⟨by omega, by omega, h3, fun k hk1 hk2 => ?_⟩
        by_cases hik : i = k
        · rw [← hik]; exact hm'
        · exact h4 k (by omega) hk2
      · rintro ⟨h1, h2, h3, h4⟩
        have hij : i ≠ j := by
          intro hij
          rw [hij, h3] at hm'
          cases hm'
        exact ⟨by omega, by omega, h3, fun k hk1 hk2 => h4 k (by omega) hk2⟩

lemma searchGo_none_iff {p : Pattern} {bytes : List Nat} {fuel : Nat} :
    ∀ {i : Nat}, searchGo p bytes fuel i = none ↔
      ∀ k, i ≤ k → k < i + fuel → matchesAt p bytes k = false := by
  induction fuel with
  | zero =>
    intro i
    simp only [searchGo]
    constructor
    · intro _ k hk1 hk2; omega
    · intro _; trivial
  | succ f ih =>
    intro i
    simp only [searchGo]
    by_cases hm : matchesAt p bytes i = true
    · rw [if_pos hm]
      constructor
      · intro h; cases h
      · intro h
        have := h i le_rfl (by omega)
        rw [hm] at this
        cases this
    · rw [if_neg hm]
      have hm' : matchesAt p bytes i = false := Bool.eq_false_iff.mpr hm
      rw [ih]
      constructor
      · intro h k hk1 hk2
        by_cases hik : i = k
        · rw [← hik]; exact hm'
        · exact h k (by omega) (by omega)
      · intro h k hk1 hk2
        exact h k (by omega) (by omega)

lemma matchesAt_true_iff {p : Pattern} {bytes : List Nat} {i : Nat} :
    matchesAt p bytes i = true ↔
      ∀ k < p.pattern_i, p.mask.getD k 0 ≠ 0 →
        p.data.getD k 0 = bytes.getD (i + k) 0 := by
  unfold matchesAt
  rw [List.all_eq_true]
  constructor
  · intro h k hk hmk
    have := h k (List.mem_range.mpr hk)
    simp only [Bool.or_eq_true, beq_iff_eq] at this
    rcases this with h0 | he
    · exact absurd h0 hmk
    · exact he
  · intro h k hk
    rw [List.mem_range] at hk
    simp only [Bool.or_eq_true, beq_iff_eq]
    by_cases h0 : p.mask.getD k 0 = 0
    · exact Or.inl h0
    · exact Or.inr (h k hk h0)

lemma lt_numWindows_iff {len n i : Nat} : i < numWindows len n ↔ i + n ≤ len := by
  unfold numWindows
  split <;> omega

lemma MatchAt_iff {p : Pattern} {bytes : List Nat} {i : Nat} :
    MatchAt p bytes i ↔
      i < numWindows bytes.length p.pattern_i ∧ matchesAt p bytes i = true := by
  unfold MatchAt
  rw [lt_numWindows_iff, matchesAt_true_iff]

/-- Leftmost-match behaviour of the linear scan, for any pattern passing the
`pattern_i <= SIZE` assertion with `pattern_i ≠ 0`. -/
lemma search_spec {p : Pattern} {bytes : List Nat} (hsz : p.pattern_i ≤ p.size)
    (hn : p.pattern_i ≠ 0) :
    ((∃ i, MatchAt p bytes i) →
      ∃ j, search p bytes = Except.ok (some j) ∧ MatchAt p bytes j ∧
        ∀ i < j, ¬MatchAt p bytes i) ∧
    ((∀ i, ¬MatchAt p bytes i) → search p bytes = Except.ok none) := by
  have hsearch : search p bytes =
      Except.ok (searchGo p bytes (numWindows bytes.length p.pattern_i) 0) := by
    unfold search
    rw [if_pos hsz, if_neg hn]
  constructor
  · rintro ⟨i, hi⟩
    cases hres : searchGo p bytes (numWindows bytes.length p.pattern_i) 0 with
    | none =>
      exfalso
      have hall := searchGo_none_iff.mp hres
      have h2 := MatchAt_iff.mp hi
      have := hall i (Nat.zero_le i) (by omega)
      rw [h2.2] at this
      cases this
    | some j =>
      obtain ⟨_, hjlt, hmj, hmin⟩ := searchGo_some_iff.mp hres
      refine ⟨j, by rw [hsearch, hres], ?_, ?_⟩
      · rw [MatchAt_iff]
        exact ⟨by omega, hmj⟩
      · intro k hk hmk
        have h2 := MatchAt_iff.mp hmk
        have := hmin k (Nat.zero_le k) hk
        rw [h2.2] at this
        cases this
  · intro hnone
    rw [hsearch]
    have : searchGo p bytes (numWindows bytes.length p.pattern_i) 0 = none := by
      rw [searchGo_none_iff]
      intro k _ hk
      cases hmk : matchesAt p bytes k with
      | false => rfl
      | true => exact absurd (MatchAt_iff.mpr ⟨by omega, hmk⟩) (hnone k)
    rw [this]

/-! ## Token counting (spec-side) versus `get_pattern_size` -/

lemma tokenCountLoop_le (l : List Nat) :
    tokenCountLoop l false ≤ gpsLoop l true + 1 ∧
      tokenCountLoop l false ≤ gpsLoop l false + 1 ∧
      tokenCountLoop l true ≤ gpsLoop l true := by
  induction l with
  | nil => simp [tokenCountLoop, gpsLoop]
  | cons c rest ih =>
    obtain ⟨ihA, ihB, ihC⟩ := ih
    by_cases hc : c = 32
    · simp only [tokenCountLoop, gpsLoop, if_pos hc]
      simp only [Bool.false_eq_true, if_false, if_true]
      refine ⟨?_, ?_, ?_⟩ <;> omega
    · simp only [tokenCountLoop, gpsLoop, if_neg hc]
      simp only [Bool.false_eq_true, if_false, if_true]
      refine ⟨?_, ?_, ?_⟩ <;> omega

lemma tokenCount_le_get_pattern_size (s : List Nat) :
    tokenCount s ≤ get_pattern_size s := by
  have := (tokenCountLoop_le s).1
  unfold tokenCount get_pattern_size
  omega

/-! ## SIMD chunk machinery -/

lemma getD_eq_getElem (l : List Nat) (j : Nat) (h : j < l.length) :
    l.getD j 0 = l[j] := by
  rw [List.getD_eq_getElem?_getD, List.getElem?_eq_getElem h]
  rfl

lemma length_take_of_le {l : List Nat} {n : Nat} (h : n ≤ l.length) :
    (l.take n).length = n := by
  simp [List.length_take]
  omega

lemma chunksExactGo_congr :
    ∀ (f1 f2 : Nat) (l : List Nat), l.length ≤ f1 → l.length ≤ f2 →
      chunksExactGo f1 l = chunksExactGo f2 l := by
  intro f1
  induction f1 with
  | zero =>
    intro f2 l h1 h2
    have hl : l = [] := List.eq_nil_of_length_eq_zero (Nat.le_zero.mp h1)
    subst hl
    cases f2 with
    | zero => rfl
    | succ f => simp [chunksExactGo]
  | succ f ih =>
    intro f2 l h1 h2
    cases f2 with
    | zero =>
      have hl : l = [] := List.eq_nil_of_length_eq_zero (Nat.le_zero.mp h2)
      subst hl
      simp [chunksExactGo]
    | succ g =>
      simp only [chunksExactGo]
      by_cases h16 : 16 ≤ l.length
      · rw [if_pos h16, if_pos h16]
        congr 1
        exact ih g (l.drop 16) (by rw [List.length_drop]; omega)
          (by rw [List.length_drop]; omega)
      · rw [if_neg h16, if_neg h16]

lemma chunksExact16_eq (l : List Nat) :
    chunksExact16 l =
      if 16 ≤ l.length then l.take 16 :: chunksExact16 (l.drop 16) else [] := by
  unfold chunksExact16
  by_cases h16 : 16 ≤ l.length
  · rw [if_pos h16]
    cases hl : l.length with
    | zero => omega
    | succ m =>
      simp only [chunksExactGo]
      rw [if_pos h16]
      congr 1
      exact chunksExactGo_congr m (l.drop 16).length (l.drop 16)
        (by rw [List.length_drop]; omega) le_rfl
  · rw [if_neg h16]
    cases hl : l.length with
    | zero => rfl
    | succ m =>
      simp only [chunksExactGo]
      rw [if_neg h16]

lemma getD_zipWith_land (a b : List Nat) (j : Nat) (ha : j < a.length)
    (hb : j < b.length) :
    (List.zipWith Nat.land a b).getD j 0 = Nat.land (a.getD j 0) (b.getD j 0) := by
  have hlen : j < (List.zipWith Nat.land a b).length := by
    rw [List.length_zipWith]
    omega
  rw [getD_eq_getElem _ _ hlen, getD_eq_getElem _ _ ha, getD_eq_getElem _ _ hb,
    List.getElem_zipWith]

lemma list_eq_iff_getD {a b : List Nat} (hlen : a.length = b.length) :
    a = b ↔ ∀ j < a.length, a.getD j 0 = b.getD j 0 := by
  constructor
  · intro h j hj
    rw [h]
  · intro h
    refine List.ext_getElem hlen (fun j h1 h2 => ?_)
    rw [← getD_eq_getElem _ _ h1, ← getD_eq_getElem _ _ h2]
    exact h j h1

lemma head_chunk_iff {s d m : List Nat} (h16 : 16 ≤ s.length)
    (hd : d.length = s.length) (hm : m.length = s.length) :
    List.zipWith Nat.land (s.take 16) (m.take 16) = d.take 16 ↔
      ∀ j < 16, Nat.land (s.getD j 0) (m.getD j 0) = d.getD j 0 := by
  have hs16 : (s.take 16).length = 16 := length_take_of_le h16
  have hm16 : (m.take 16).length = 16 := length_take_of_le (by omega)
  have hd16 : (d.take 16).length = 16 := length_take_of_le (by omega)
  rw [list_eq_iff_getD (by rw [List.length_zipWith]; omega)]
  have hzlen : (List.zipWith Nat.land (s.take 16) (m.take 16)).length = 16 := by
    rw [List.length_zipWith]
    omega
  rw [hzlen]
  constructor
  · intro h j hj
    have := h j hj
    rw [getD_zipWith_land _ _ _ (by omega) (by omega), getD_take _ _ _ hj,
      getD_take _ _ _ hj, getD_take _ _ _ hj] at this
    exact this
  · intro h j hj
    rw [getD_zipWith_land _ _ _ (by omega) (by omega), getD_take _ _ _ hj,
      getD_take _ _ _ hj, getD_take _ _ _ hj]
    exact h j hj

lemma chunkCmp_spec :
    ∀ (n : Nat) (s d m : List Nat), s.length = n → d.length = n → m.length = n →
      chunkCmp (chunksExact16 s) (chunksExact16 d) (chunksExact16 m) =
        some ((List.range (16 * (n / 16))).all fun k =>
          Nat.land (s.getD k 0) (m.getD k 0) == d.getD k 0) := by
  intro n
  induction n using Nat.strong_induction_on with
  | _ n ih =>
    intro s d m hs hd hm
    rw [chunksExact16_eq s, chunksExact16_eq d, chunksExact16_eq m]
    by_cases h16 : 16 ≤ n
    · rw [if_pos (by omega), if_pos (by omega), if_pos (by omega)]
      simp only [chunkCmp]
      have hmul : 16 * (n / 16) = 16 + 16 * ((n - 16) / 16) := by omega
      rw [hmul, List.range_add, List.all_append, List.all_map]
      by_cases hhead : List.zipWith Nat.land (s.take 16) (m.take 16) = d.take 16
      · rw [if_pos hhead]
        rw [ih (n - 16) (by omega) (s.drop 16) (d.drop 16) (m.drop 16)
          (by rw [List.length_drop]; omega) (by rw [List.length_drop]; omega)
          (by rw [List.length_drop]; omega)]
        have htail : ((List.range (16 * ((n - 16) / 16))).all fun k =>
            Nat.land ((s.drop 16).getD k 0) ((m.drop 16).getD k 0) ==
              (d.drop 16).getD k 0) =
            ((List.range (16 * ((n - 16) / 16))).all fun k =>
              Nat.land (s.getD (16 + k) 0) (m.getD (16 + k) 0) ==
                d.getD (16 + k) 0) := by
          refine all_congr (fun k _ => ?_)
          rw [getD_drop, getD_drop, getD_drop]
        have hheadall : ((List.range 16).all fun k =>
            Nat.land (s.getD k 0) (m.getD k 0) == d.getD k 0) = true := by
          rw [List.all_eq_true]
          intro j hj
          rw [List.mem_range] at hj
          rw [beq_iff_eq]
          exact (head_chunk_iff (by omega) (by omega) (by omega)).mp hhead j hj
        rw [htail, hheadall, Bool.true_and]
        rfl
      · rw [if_neg hhead]
        have hheadall : ((List.range 16).all fun k =>
            Nat.land (s.getD k 0) (m.getD k 0) == d.getD k 0) = false := by
          rw [Bool.eq_false_iff]
          intro hall
          refine hhead ((head_chunk_iff (by omega) (by omega) (by omega)).mpr ?_)
          intro j hj
          have := List.all_eq_true.mp hall j (List.mem_range.mpr hj)
          exact beq_iff_eq.mp this
        rw [hheadall, Bool.false_and]
    · rw [if_neg (by omega), if_neg (by omega), if_neg (by omega)]
      rw [Nat.div_eq_of_lt (by omega)]
      rfl

lemma land_255 {s : Nat} (hs : s < 256) : Nat.land s 255 = s := by
  have h := Nat.and_pow_two_sub_one_eq_mod s 8
  norm_num at h
  exact h.trans (Nat.mod_eq_of_lt hs)

/-- One SIMD lane agrees with the scalar exact-or-wildcard rule, given the
compiled-pattern invariants (mask is `0` or `255`, data under a zero mask is
zero) and a byte-sized buffer value. -/
lemma lane_eq {mv dv sv : Nat} (hm : mv = 0 ∨ mv = 255) (h0 : mv = 0 → dv = 0)
    (hs : sv < 256) : (Nat.land sv mv == dv) = (mv == 0 || dv == sv) := by
  rcases hm with h | h
  · subst h
    rw [show Nat.land sv 0 = 0 from Nat.and_zero sv, h0 rfl]
    simp
  · subst h
    rw [land_255 hs]
    rw [Bool.eq_iff_iff]
    simp only [Bool.or_eq_true, beq_iff_eq]
    constructor
    · intro h
      exact Or.inr h.symm
    · rintro (h | h)
      · omega
      · exact h.symm

/-- One `simd_search` window behaves exactly like the scalar `'compare`
loop on that window: it never takes the `?`-abort or the panic path, and it
accepts exactly the windows the linear rule accepts. -/
lemma simdWindowCheck_eq {p : Pattern} (hwf : WF p) {slice : List Nat}
    (hlen : slice.length = p.pattern_i) (hb : ∀ k, slice.getD k 0 < 256) :
    simdWindowCheck p slice =
      if (List.range p.pattern_i).all (fun k =>
          p.mask.getD k 0 == 0 || p.data.getD k 0 == slice.getD k 0) then
        SimdW.matched
      else SimdW.rejected := by
  obtain ⟨hdl, hml, hsz, hm01, hm0d, hd256⟩ := hwf
  have htd : (p.data.take p.pattern_i).length = p.pattern_i :=
    length_take_of_le (by omega)
  have htm : (p.mask.take p.pattern_i).length = p.pattern_i :=
    length_take_of_le (by omega)
  have hq : 16 * (p.pattern_i / 16) ≤ p.pattern_i := by omega
  unfold simdWindowCheck
  rw [chunkCmp_spec p.pattern_i slice (p.data.take p.pattern_i)
    (p.mask.take p.pattern_i) hlen htd htm]
  have hchunk : ((List.range (16 * (p.pattern_i / 16))).all fun k =>
      Nat.land (slice.getD k 0) ((p.mask.take p.pattern_i).getD k 0) ==
        (p.data.take p.pattern_i).getD k 0) =
      ((List.range (16 * (p.pattern_i / 16))).all fun k =>
        p.mask.getD k 0 == 0 || p.data.getD k 0 == slice.getD k 0) := by
    refine all_congr (fun k hk => ?_)
    rw [List.mem_range] at hk
    rw [getD_take _ _ _ (by omega), getD_take _ _ _ (by omega)]
    exact lane_eq (hm01 k) (hm0d k) (hb k)
  rw [hchunk]
  have hsplit : ((List.range p.pattern_i).all fun k =>
      p.mask.getD k 0 == 0 || p.data.getD k 0 == slice.getD k 0) =
      (((List.range (16 * (p.pattern_i / 16))).all fun k =>
        p.mask.getD k 0 == 0 || p.data.getD k 0 == slice.getD k 0) &&
       ((List.range (p.pattern_i % 16)).all fun j =>
        p.mask.getD (16 * (p.pattern_i / 16) + j) 0 == 0 ||
          p.data.getD (16 * (p.pattern_i / 16) + j) 0 ==
            slice.getD (16 * (p.pattern_i / 16) + j) 0)) := by
    conv_lhs =>
      rw [show p.pattern_i = 16 * (p.pattern_i / 16) + p.pattern_i % 16 by omega]
    rw [List.range_add, List.all_append, List.all_map]
    rfl
  rw [hsplit]
  cases hc : (List.range (16 * (p.pattern_i / 16))).all fun k =>
      p.mask.getD k 0 == 0 || p.data.getD k 0 == slice.getD k 0 with
  | false =>
    dsimp only
    rw [Bool.false_and]
    simp
  | true =>
    dsimp only
    rw [Bool.true_and]
    rw [hlen]
    have hrl : (slice.drop (16 * (p.pattern_i / 16))).length = p.pattern_i % 16 := by
      rw [List.length_drop, hlen]
      omega
    rw [hrl]
    rw [show p.pattern_i - p.pattern_i % 16 = 16 * (p.pattern_i / 16) by omega]
    rw [if_pos (by omega : p.pattern_i % 16 + 16 * (p.pattern_i / 16) ≤ p.size)]
    have hrem : ((List.range (p.pattern_i % 16)).all fun j =>
        p.mask.getD (16 * (p.pattern_i / 16) + j) 0 == 0 ||
          p.data.getD (16 * (p.pattern_i / 16) + j) 0 ==
            (slice.drop (16 * (p.pattern_i / 16))).getD j 0) =
        ((List.range (p.pattern_i % 16)).all fun j =>
          p.mask.getD (16 * (p.pattern_i / 16) + j) 0 == 0 ||
            p.data.getD (16 * (p.pattern_i / 16) + j) 0 ==
              slice.getD (16 * (p.pattern_i / 16) + j) 0) := by
      refine all_congr (fun j _ => ?_)
      rw [getD_drop]
    rw [hrem]

lemma matchesAt_slice {p : Pattern} {bytes : List Nat} {i : Nat} :
    ((List.range p.pattern_i).all fun k =>
      p.mask.getD k 0 == 0 ||
        p.data.getD k 0 == ((bytes.drop i).take p.pattern_i).getD k 0) =
      matchesAt p bytes i := by
  unfold matchesAt
  refine all_congr (fun k hk => ?_)
  rw [List.mem_range] at hk
  rw [getD_take _ _ _ hk, getD_drop]

lemma simdGo_eq_searchGo {p : Pattern} (hwf : WF p) {bytes : List Nat}
    (hb : ∀ k, bytes.getD k 0 < 256) :
    ∀ fuel i, fuel + i ≤ numWindows bytes.length p.pattern_i →
      simdGo p bytes fuel i = Except.ok (searchGo p bytes fuel i) := by
  intro fuel
  induction fuel with
  | zero => intro i _; rfl
  | succ f ih =>
    intro i hfi
    have hiw : i < numWindows bytes.length p.pattern_i := by omega
    have hwin : i + p.pattern_i ≤ bytes.length := lt_numWindows_iff.mp hiw
    have hslen : ((bytes.drop i).take p.pattern_i).length = p.pattern_i := by
      simp [List.length_take, List.length_drop]
      omega
    have hsb : ∀ k, ((bytes.drop i).take p.pattern_i).getD k 0 < 256 := by
      intro k
      by_cases hk : k < p.pattern_i
      · rw [getD_take _ _ _ hk, getD_drop]
        exact hb (i + k)
      · rw [List.getD_eq_getElem?_getD, List.getElem?_eq_none (by omega)]
        norm_num
    simp only [simdGo, searchGo]
    rw [simdWindowCheck_eq hwf hslen hsb, matchesAt_slice]
    by_cases hm : matchesAt p bytes i = true
    · rw [if_pos hm, if_pos hm]
    · rw [if_neg hm, if_neg hm]
      exact ih (i + 1) (by omega)

/-- Shared refinement core: on a byte buffer, `simd_search` computes exactly
the same `Except` result as `search` for every well-formed pattern
(including the `pattern_i = 0` panic, where both fail identically). -/
lemma simd_search_eq_search {p : Pattern} (hwf : WF p) {bytes : List Nat}
    (hb : ∀ b ∈ bytes, b < 256) : simd_search p bytes = search p bytes := by
  have hsz : p.pattern_i ≤ p.size := hwf.2.2.1
  unfold simd_search search
  rw [if_pos hsz, if_pos hsz]
  by_cases hn : p.pattern_i = 0
  · rw [if_pos hn, if_pos hn]
  · rw [if_neg hn, if_neg hn]
    exact simdGo_eq_searchGo hwf (fun k => getD_lt_256 hb k)
      (numWindows bytes.length p.pattern_i) 0 (by omega)

/-! ## Concrete signatures (lists of UTF-8 bytes) and patterns -/

/-- The signature string `FF D8 ?? 03`. -/
def sigFFD8 : List Nat := [70, 70, 32, 68, 56, 32, 63, 63, 32, 48, 51]

/-- The pattern `Pattern::<5>::from_str("FF D8 ?? 03")` compiles to. -/
def patFFD8 : Pattern := ⟨5, [255, 216, 0, 3, 0], [255, 255, 0, 255, 255], 4, false⟩

/-- The signature string `FF ?? 00`. -/
def sigFF00 : List Nat := [70, 70, 32, 63, 63, 32, 48, 48]

/-- The signature string `ABC`. -/
def sigABC : List Nat := [65, 66, 67]

/-- The signature string `GG`. -/
def sigGG : List Nat := [71, 71]

/-- The signature string `FF ??`. -/
def sigFFQQ : List Nat := [70, 70, 32, 63, 63]

/-- The signature string `?? FF`. -/
def sigQQFF : List Nat := [63, 63, 32, 70, 70]

/-- The signature string `?? AB`. -/
def sigQQAB : List Nat := [63, 63, 32, 65, 66]

/-- The signature string `FF`. -/
def sigFF : List Nat := [70, 70]

/-! ## Claim theorems -/

/-- Claim C1: for every compiled `Pattern` and every byte buffer,
`simd_search` returns exactly the same result as `search`: the two
functions are equal as `Except` computations, so in particular they return
the same `Some` offset or both return `None` whenever they return. -/
theorem C1_simd_search_eq_search (N : Nat) (s : List Nat) (p : Pattern)
    (bytes : List Nat) (hc : from_str N s = some p)
    (hb : ∀ b ∈ bytes, b < 256) :
    simd_search p bytes = search p bytes :=
  simd_search_eq_search (from_str_WF hc).1 hb

theorem C1_witness :
    simd_search patFFD8 [0, 255, 216, 119, 3, 0] =
      search patFFD8 [0, 255, 216, 119, 3, 0] :=
  C1_simd_search_eq_search 5 sigFFD8 patFFD8 [0, 255, 216, 119, 3, 0]
    (by decide) (by decide)

/-- Claim C2: for a compiled pattern with `pattern_i > 0`, if some offset
satisfies the EXACT-position rule then `search` returns `Some` of the
smallest such offset, otherwise it returns `None`; and `simd_search`
behaves identically. -/
theorem C2_leftmost_match (N : Nat) (s : List Nat) (p : Pattern)
    (bytes : List Nat) (hc : from_str N s = some p) (hn : 0 < p.pattern_i)
    (hb : ∀ b ∈ bytes, b < 256) :
    ((∃ i, MatchAt p bytes i) →
      ∃ j, search p bytes = Except.ok (some j) ∧
        simd_search p bytes = Except.ok (some j) ∧ MatchAt p bytes j ∧
        ∀ i < j, ¬MatchAt p bytes i) ∧
    ((∀ i, ¬MatchAt p bytes i) →
      search p bytes = Except.ok none ∧
        simd_search p bytes = Except.ok none) := by
  have hwf := (from_str_WF hc).1
  have hspec := @search_spec p bytes hwf.2.2.1 (by omega)
  have heq := simd_search_eq_search hwf hb
  constructor
  · intro hex
    obtain ⟨j, hj1, hj2, hj3⟩ := hspec.1 hex
    refine ⟨j, hj1, ?_, hj2, hj3⟩
    rw [heq]
    exact hj1
  · intro hnone
    have hok := hspec.2 hnone
    refine ⟨hok, ?_⟩
    rw [heq]
    exact hok

theorem C2_witness :
    ∃ j, search patFFD8 [0, 255, 216, 119, 3, 0] = Except.ok (some j) ∧
      simd_search patFFD8 [0, 255, 216, 119, 3, 0] = Except.ok (some j) ∧
      MatchAt patFFD8 [0, 255, 216, 119, 3, 0] j ∧
      ∀ i < j, ¬MatchAt patFFD8 [0, 255, 216, 119, 3, 0] i :=
  (C2_leftmost_match 5 sigFFD8 patFFD8 [0, 255, 216, 119, 3, 0]
    (by decide) (by decide) (by decide)).1 ⟨1, by decide⟩

/-- Claim C3: compiling `FF D8 ?? 03` with capacity 5 succeeds with
`pattern_i = 4`, data starting `FF D8 00 03`, mask EXACT (255) at positions
0, 1, 3 and WILDCARD (0) at position 2; searching the buffer
`[00, FF, D8, 77, 03, 00]` with it returns `Some 1`. -/
theorem C3_concrete_scenario :
    from_str 5 sigFFD8 = some patFFD8 ∧ patFFD8.pattern_i = 4 ∧
      patFFD8.data = [255, 216, 0, 3, 0] ∧
      patFFD8.mask = [255, 255, 0, 255, 255] ∧
      search patFFD8 [0, 255, 216, 119, 3, 0] = Except.ok (some 1) :=
  ⟨by decide, rfl, rfl, rfl, by rfl⟩

/-- Claim C4: `from_str` fails whenever the declared capacity is at most
the signature's whitespace-delimited token count; in particular `FF ?? 00`
(3 tokens) with capacity 2 fails, every successful capacity for it is at
least 4, and capacity 4 indeed succeeds. -/
theorem C4_capacity_precheck :
    (∀ (s : List Nat) (N : Nat), N ≤ tokenCount s → from_str N s = none) ∧
      from_str 2 sigFF00 = none ∧
      (∀ N p, from_str N sigFF00 = some p → 4 ≤ N) ∧
      (from_str 4 sigFF00).isSome = true := by
  refine ⟨?_, by decide, ?_, by decide⟩
  · intro s N hN
    have hle := tokenCount_le_get_pattern_size s
    unfold from_str
    rw [if_neg (by omega)]
  · intro N p h
    obtain ⟨st, st2, hN, _, _, _⟩ := from_str_inv h
    have hgps : get_pattern_size sigFF00 = 3 := by decide
    omega

theorem C4_witness : from_str 3 sigFF00 = none :=
  C4_capacity_precheck.1 sigFF00 3 (by decide)

/-- Claim C5 counterexample: the signature `ABC` — one token of three hex
digits — is accepted by `from_str` with capacity 2 and compiles to the
single byte `0xAC`, refuting the claim that such tokens fail compilation. -/
theorem C5_counterexample :
    from_str 2 sigABC = some ⟨2, [172, 0], [255, 255], 1, true⟩ := by decide

/-- Claim C5 (amended): a token whose scratch characters do not parse as a
base-16 `u8` (e.g. `GG`) fails compilation, but a token of three or more
hex digits is silently parsed — the third and later digits overwrite the
second scratch slot, so `ABC` compiles to the single byte `0xAC` (first and
last digits) instead of being rejected. -/
theorem C5_amended :
    from_str 2 sigGG = none ∧
      from_str 2 sigABC = some ⟨2, [172, 0], [255, 255], 1, true⟩ :=
  ⟨by decide, by decide⟩

/-- Claim C6: `from_str("FF ??")` — a well-formed signature ending in a
wildcard token, with ample capacity — fails: after the final `?` the
scratch buffer is empty (a `?` never reaches it, making the
`hexbytes[0] == b'?'` flush branch unreachable), so the end-of-input
`assert!(hexbytes[0] != 0)` panics, contradicting the claim (and the intent
expressed by that dead flush branch) that trailing-wildcard signatures
compile. -/
theorem C6_trailing_wildcard_panics : from_str 4 sigFFQQ = none := by decide

/-- Claim C7 counterexample: the empty signature compiles (capacity 2) to a
pattern with `pattern_i = 0`, and `search` on that pattern panics — Rust's
`bytes.windows(0)` — even on the empty buffer, refuting "search operations
never fail" as stated for every `from_str`-produced pattern. -/
theorem C7_counterexample :
    from_str 2 [] = some ⟨2, [0, 0], [255, 255], 0, true⟩ ∧
      search ⟨2, [0, 0], [255, 255], 0, true⟩ [] = Except.error () :=
  ⟨by decide, by rfl⟩

/-- Claim C7 (amended): for every pattern compiled from a nonempty
signature and every buffer, `search` returns an `Except.ok` result — it
neither panics on `windows(0)` nor trips the `pattern_i <= SIZE`
assertion. -/
theorem C7_search_total (N : Nat) (s : List Nat) (p : Pattern)
    (bytes : List Nat) (hne : s ≠ []) (hc : from_str N s = some p) :
    ∃ r, search p bytes = Except.ok r := by
  obtain ⟨hwf, _, hpos⟩ := from_str_WF hc
  refine ⟨searchGo p bytes (numWindows bytes.length p.pattern_i) 0, ?_⟩
  unfold search
  rw [if_pos hwf.2.2.1, if_neg (by have := hpos hne; omega)]

theorem C7_witness :
    ∃ r, search ⟨2, [255, 0], [255, 255], 1, true⟩ [] = Except.ok r :=
  C7_search_total 2 sigFF ⟨2, [255, 0], [255, 255], 1, true⟩ []
    (by decide) (by decide)

/-- Claim C8: wildcard transparency — for a compiled pattern whose mask
marks position `k < pattern_i` as WILDCARD, replacing the buffer byte at
index `i + k` by any value leaves unchanged whether the window at offset
`i` is accepted by the search comparison. -/
theorem C8_wildcard_transparency (N : Nat) (s : List Nat) (p : Pattern)
    (k : Nat) (_hc : from_str N s = some p) (_hk : k < p.pattern_i)
    (hm : p.mask.getD k 0 = 0) (bytes : List Nat) (i v : Nat) :
    matchesAt p (bytes.set (i + k) v) i = matchesAt p bytes i := by
  unfold matchesAt
  refine all_congr (fun j hj => ?_)
  by_cases hjk : j = k
  · subst hjk
    rw [hm]
    simp
  · rw [getD_set_ne _ _ _ _ (by omega)]

theorem C8_witness :
    matchesAt ⟨3, [0, 255, 0], [0, 255, 255], 2, false⟩ ([7, 255].set 0 9) 0 =
      matchesAt ⟨3, [0, 255, 0], [0, 255, 255], 2, false⟩ [7, 255] 0 :=
  C8_wildcard_transparency 3 sigQQFF ⟨3, [0, 255, 0], [0, 255, 255], 2, false⟩
    0 (by decide) (by decide) (by decide) [7, 255] 0 9

/-- Claim C9: parallel-search soundness — whenever `par_search` may return
`Some i` (some rayon worker wins the `find_any` race with candidate
`Some i`), offset `i` is a valid match: the window fits in the buffer and
every EXACT position below `pattern_i` agrees with the buffer byte at
`i + position`. -/
theorem C9_par_search_sound (p : Pattern) (bytes : List Nat) (i : Nat)
    (h : par_search_may_return p bytes (some i)) : MatchAt p bytes i := by
  rcases h with ⟨o, ho, hs, heq⟩ | ⟨hnone, _⟩
  · subst heq
    unfold parCandidates at ho
    rw [List.mem_map] at ho
    obtain ⟨j, hj, hjo⟩ := ho
    rw [List.mem_range] at hj
    by_cases hmj : matchesAt p bytes j = true
    · rw [if_pos hmj] at hjo
      injection hjo with hjo
      subst hjo
      exact MatchAt_iff.mpr ⟨hj, hmj⟩
    · rw [if_neg hmj] at hjo
      cases hjo
  · cases hnone

theorem C9_witness : MatchAt patFFD8 [255, 216, 9, 3] 0 :=
  C9_par_search_sound patFFD8 [255, 216, 9, 3] 0 (by decide)

/-- Claim C10: every compiled pattern satisfies the invariant that below
`pattern_i`, a WILDCARD mask entry (0) sits over a zero data byte; patterns
are immutable values in this embedding, so the invariant persists for every
search call. -/
theorem C10_wildcard_data_zero (N : Nat) (s : List Nat) (p : Pattern)
    (hc : from_str N s = some p) :
    ∀ k < p.pattern_i, p.mask.getD k 0 = 0 → p.data.getD k 0 = 0 :=
  fun k _ hk => (from_str_WF hc).1.2.2.2.2.1 k hk

theorem C10_witness :
    (Pattern.mk 3 [0, 171, 0] [0, 255, 255] 2 false).data.getD 0 0 = 0 :=
  C10_wildcard_data_zero 3 sigQQAB (Pattern.mk 3 [0, 171, 0] [0, 255, 255] 2 false)
    (by decide) 0 (by decide) (by decide)

end Tinypatscan
